import Mathlib

/-
  Shallow embedding of the multi-stream playback synchronization engine
  (`SynchronizationManager`, src/unnamed/part_001) of the video-player
  repository, together with theorems settling the frozen claims.

  Modelling conventions:
  * JS numbers are embedded as rationals (ℚ); all comparisons in the engine
    are order/equality comparisons, which ℚ models exactly.
  * Media elements are identified by natural numbers (JS object identity).
    Each element's mutable `currentTime` lives in the world state as a total
    function `times : Nat → ℚ` (every media element always has a currentTime).
    The `buffered` ranges descriptor is per-event data and is passed to the
    handlers that read it, as a list of (start, end) pairs.
  * `_videosWaiting` (a JS Set) is a duplicate-free-by-construction list used
    only through membership and size; `_videoBufferPositions` (a JS Map) is an
    association list with replace-or-append insertion.
  * Callbacks are opaque ids; invoking callbacks is modelled by returning the
    list of invoked ids in order.
  * The timer rescheduling (`setTimeout`) is real time and is not part of the
    embedding: `syncVideosTick` models the body of one `_syncVideos` tick.
-/

namespace VideoPlayer

/-- The play-state enumeration `PLAY_STATES` (from constants.js, declared in
the spec §6 as PLAYING, PAUSED, WAITING, FINISHED). -/
inductive PlayState where
  | PLAYING
  | PAUSED
  | WAITING
  | FINISHED
deriving DecidableEq

/-- Modelled from the spec: the Playback State Store (the `StateManager`,
an external collaborator whose code is not under src/). Spec §6 gives its
read fields (`position`, `duration`, `playState`, `trimStart`, `trimEnd`,
`live`) and write setters; writes are plain assignments to the named field.
`trimStart`/`trimEnd` are optional; JS code tests them by truthiness, under
which the number 0 and an absent value behave alike. -/
structure StoreState where
  playState : PlayState
  position : ℚ
  duration : ℚ
  bufferPosition : ℚ
  trimStart : Option ℚ
  trimEnd : Option ℚ
  live : Bool
deriving DecidableEq

/-- Modelled from the spec: `setPosition(time, markAsUserSeek)`; the second
argument does not affect the stored value and is dropped. -/
def setPosition (st : StoreState) (t : ℚ) : StoreState :=
  { st with position := t }

/-- Modelled from the spec: `setPlayState(state, markAsUserAction)`. -/
def setPlayState (st : StoreState) (s : PlayState) : StoreState :=
  { st with playState := s }

/-- Modelled from the spec: `setDuration(time)`. -/
def setDuration (st : StoreState) (t : ℚ) : StoreState :=
  { st with duration := t }

/-- Modelled from the spec: `setBufferPosition(time)`. -/
def setBufferPosition (st : StoreState) (t : ℚ) : StoreState :=
  { st with bufferPosition := t }

/-- The SynchronizationManager state together with the store it writes to and
the mutable currentTime of every media element. Fields mirror the constructor
(part_001 lines 8-25): `_videos`, `_videosWaiting`, `_videoBufferPositions`,
`_readyCallbacks`, and the lazily-created `backupPlayState` property. -/
structure Manager where
  videos : List Nat
  videosWaiting : List Nat
  videoBufferPositions : List (Nat × ℚ)
  readyCallbacks : List (Nat × Bool)
  backupPlayState : Option PlayState
  store : StoreState
  times : Nat → ℚ

/-- JS `Set.add`: inserts only when absent. -/
def setAdd (s : List Nat) (v : Nat) : List Nat :=
  if v ∈ s then s else s ++ [v]

/-- JS `Set.delete`: removes the element (present at most once, but filtering
is correct for any list). -/
def setDelete (s : List Nat) (v : Nat) : List Nat :=
  s.filter (fun x => x ≠ v)

/-- JS `Map.set`: replaces the value when the key is present, appends
otherwise. -/
def mapSet (m : List (Nat × ℚ)) (k : Nat) (v : ℚ) : List (Nat × ℚ) :=
  if m.any (fun p => p.1 = k) then
    m.map (fun p => if p.1 = k then (k, v) else p)
  else m ++ [(k, v)]

/-- `registerVideo(video)` (part_001 lines 32-44): appends to the registry.
The addEventListener subscriptions are the event dispatch itself and have no
state beyond registration. -/
def registerVideo (m : Manager) (v : Nat) : Manager :=
  { m with videos := m.videos ++ [v] }

/-- `unregisterVideo(video)` (part_001 lines 51-64): filters the registry and
deletes the waiting-set entry. Note: the source does not touch
`_videoBufferPositions` here. -/
def unregisterVideo (m : Manager) (v : Nat) : Manager :=
  { m with
    videos := m.videos.filter (fun x => x ≠ v),
    videosWaiting := setDelete m.videosWaiting v }

/-- `onVideosReady(callback, once = false)` (part_001 lines 72-74). -/
def onVideosReady (m : Manager) (cb : Nat) (once : Bool) : Manager :=
  { m with readyCallbacks := m.readyCallbacks ++ [(cb, once)] }

/-- JS `Array.indexOf`: index of the first occurrence, -1 when absent. -/
def jsIndexOf (v : Nat) : List Nat → Int
  | [] => -1
  | x :: xs =>
    if x = v then 0
    else if jsIndexOf v xs = -1 then -1 else jsIndexOf v xs + 1

/-- `isMaster(video)` (part_001 lines 82-84): `indexOf(video) === 0`. -/
def isMaster (m : Manager) (v : Nat) : Bool :=
  decide (jsIndexOf v m.videos = 0)

/-- `_anyWaiting()` (part_001 lines 162-164): `_videosWaiting.size > 0`. -/
def anyWaiting (m : Manager) : Bool :=
  decide (0 < m.videosWaiting.length)

/-- `_backupPlayState()` (part_001 lines 256-261): snapshot the play state
unless the current play state is already WAITING. -/
def backupPlayStateOp (m : Manager) : Manager :=
  if m.store.playState ≠ PlayState.WAITING then
    { m with backupPlayState := some m.store.playState }
  else m

/-- `_restorePlayState()` (part_001 lines 267-274): if a backup exists, write
it back only when the store is still WAITING, and clear the backup either way.
JS tests the backup by truthiness; all `PLAY_STATES` values are truthy, so
`Option.isSome` models the test. -/
def restorePlayState (m : Manager) : Manager :=
  match m.backupPlayState with
  | none => m
  | some s =>
    if m.store.playState = PlayState.WAITING then
      { m with store := setPlayState m.store s, backupPlayState := none }
    else
      { m with backupPlayState := none }

/-- First statement of `setWaiting` (part_001 line 199-201): back up the play
state when no video is waiting yet. -/
def backupStep (m : Manager) : Manager :=
  if anyWaiting m then m else backupPlayStateOp m

/-- Second statement of `setWaiting` (part_001 line 202): add to the waiting
set. -/
def addWaiting (m : Manager) (v : Nat) : Manager :=
  { m with videosWaiting := setAdd m.videosWaiting v }

/-- Third statement of `setWaiting` (part_001 lines 205-207): publish WAITING
unless the play state is FINISHED. -/
def publishWaiting (m : Manager) : Manager :=
  if m.store.playState = PlayState.FINISHED then m
  else { m with store := setPlayState m.store PlayState.WAITING }

/-- `setWaiting(video)` (part_001 lines 198-208), the three statements in
source order. -/
def setWaiting (m : Manager) (v : Nat) : Manager :=
  publishWaiting (addWaiting (backupStep m) v)

/-- `_videoWaiting(e)` (part_001 lines 171-173): the stall handler. -/
def videoWaitingEv (m : Manager) (v : Nat) : Manager :=
  setWaiting m v

/-- The loop condition of `_videoSeeking` (part_001 lines 184-187): some
buffered interval contains the time, with half-open containment
`start(i) <= t && t < end(i)`. -/
def bufferedContains (buffered : List (ℚ × ℚ)) (t : ℚ) : Bool :=
  buffered.any (fun r => decide (r.1 ≤ t) && decide (t < r.2))

/-- `_videoSeeking(e)` (part_001 lines 180-191): the seek target is the
element's currentTime; return early when buffered, otherwise `setWaiting`. -/
def videoSeeking (m : Manager) (v : Nat) (buffered : List (ℚ × ℚ)) : Manager :=
  if bufferedContains buffered (m.times v) then m else setWaiting m v

/-- `_videoReady(e)` (part_001 lines 215-223). Returns the new state and the
ids of the callbacks invoked (in order). The JS `Set.delete` returns whether
the element was present; deletion plus the emptiness test on the shrunken set
are modelled directly. Callbacks are invoked on the pre-filter list, then the
once-callbacks are dropped. -/
def videoReady (m : Manager) (v : Nat) : Manager × List Nat :=
  if v ∈ m.videosWaiting then
    let m1 : Manager := { m with videosWaiting := setDelete m.videosWaiting v }
    if anyWaiting m1 then (m1, [])
    else
      let m2 := restorePlayState m1
      ({ m2 with readyCallbacks := m2.readyCallbacks.filter (fun c => c.2 = false) },
        m2.readyCallbacks.map Prod.fst)
  else (m, [])

/-- The descending search of `_videoProgress` (part_001 lines 235-241): the
last buffered interval whose start is at or before currentTime; its end is the
current buffer position. -/
def findCurrentBuffer (buffered : List (ℚ × ℚ)) (ct : ℚ) : Option ℚ :=
  match buffered.reverse.find? (fun r => decide (r.1 ≤ ct)) with
  | some r => some r.2
  | none => none

/-- `Math.min(...)` over a list of values; the engine only calls it on a
non-empty collection (guarded by `size > 0`), the `[]` default is never
reached from the embedded code. -/
def minList : List ℚ → ℚ
  | [] => 0
  | [x] => x
  | x :: y :: rest => min x (minList (y :: rest))

/-- `_videoProgress(e)` (part_001 lines 231-250): record the element's buffer
position when one is found, then publish the minimum over the map when the map
is non-empty. -/
def videoProgress (m : Manager) (v : Nat) (buffered : List (ℚ × ℚ)) : Manager :=
  if 0 < buffered.length then
    let m1 : Manager :=
      match findCurrentBuffer buffered (m.times v) with
      | some b => { m with videoBufferPositions := mapSet m.videoBufferPositions v b }
      | none => m
    if 0 < m1.videoBufferPositions.length then
      let globalBuffer := minList (m1.videoBufferPositions.map Prod.snd)
      { m1 with store := setBufferPosition m1.store globalBuffer }
    else m1
  else m

/-- `_videoTimeUpdate(e)` truthiness test `state.trimStart && currentTime <
state.trimStart` (part_001 line 96): a present, non-zero trim start that lies
above the current time. -/
def belowTrim (ts? : Option ℚ) (ct : ℚ) : Bool :=
  match ts? with
  | none => false
  | some ts => decide (ts ≠ 0) && decide (ct < ts)

/-- `_videoTimeUpdate(e)` truthiness test `state.trimEnd && currentTime >
state.trimEnd` (part_001 line 98). -/
def aboveTrim (te? : Option ℚ) (ct : ℚ) : Bool :=
  match te? with
  | none => false
  | some te => decide (te ≠ 0) && decide (te < ct)

/-- `_videoTimeUpdate(e)` (part_001 lines 92-104): master-only, skipped while
any video waits; clamp the published position into the trim window (the `getD`
defaults are only read in branches where the option is known present). -/
def videoTimeUpdate (m : Manager) (v : Nat) : Manager :=
  if isMaster m v = true ∧ anyWaiting m = false then
    if belowTrim m.store.trimStart (m.times v) then
      { m with store := setPosition m.store (m.store.trimStart.getD 0) }
    else if aboveTrim m.store.trimEnd (m.times v) then
      { m with store := setPosition m.store (m.store.trimEnd.getD 0) }
    else
      { m with store := setPosition m.store (m.times v) }
  else m

/-- `_videoEnded(e)` (part_001 lines 111-117). -/
def videoEnded (m : Manager) (v : Nat) : Manager :=
  if isMaster m v = true ∧ anyWaiting m = false then
    { m with store := setPlayState m.store PlayState.FINISHED }
  else m

/-- `_videoDurationChanged(e)` (part_001 lines 125-130). -/
def videoDurationChanged (m : Manager) (v : Nat) (d : ℚ) : Manager :=
  if isMaster m v = true then { m with store := setDuration m.store d } else m

/-- `this._videos[0].currentTime`: the master's position (the `headD` default
id is only reachable when the registry is empty, in which case no surrounding
code reads the value — both filters below range over the empty registry). -/
def masterTime (m : Manager) : ℚ :=
  m.times (m.videos.headD 0)

/-- Body of the paused-branch `forEach` of `_syncVideos` (part_001 lines
142-143): assign the master's (live) currentTime to the video. -/
def pauseCorrect (masterId : Nat) (acc : Manager) (v : Nat) : Manager :=
  { acc with times := fun w => if w = v then acc.times masterId else acc.times w }

/-- Body of the playing-branch `forEach` of `_syncVideos` (part_001 lines
147-150): `setWaiting(video)` first, then assign the master's (live)
currentTime. -/
def correctVideo (masterId : Nat) (acc : Manager) (v : Nat) : Manager :=
  pauseCorrect masterId (setWaiting acc v) v

/-- One tick of `_syncVideos` (part_001 lines 137-155), without the
`setTimeout` rescheduling. The `filter` lists are computed on the pre-tick
times (JS `filter` runs to completion before `forEach` starts); the `forEach`
bodies then run in order on the evolving state. -/
def syncVideosTick (thr : ℚ) (m : Manager) : Manager :=
  if anyWaiting m = false ∧ m.store.live = false then
    let masterId := m.videos.headD 0
    if m.store.playState = PlayState.PAUSED then
      (m.videos.filter (fun v => decide (m.times v ≠ m.times masterId))).foldl
        (pauseCorrect masterId) m
    else
      (m.videos.filter (fun v => decide (thr < |m.times v - m.times masterId|))).foldl
        (correctVideo masterId) m
  else m

/-- Stall/ready notifications, the alphabet of claim C1's sequences. -/
inductive SREvent where
  | stall (v : Nat)
  | ready (v : Nat)

/-- One stall/ready notification dispatched to the engine. -/
def stepSR (m : Manager) (e : SREvent) : Manager :=
  match e with
  | .stall v => setWaiting m v
  | .ready v => (videoReady m v).1

/-- A whole sequence of stall/ready notifications. -/
def runSR (m : Manager) (es : List SREvent) : Manager :=
  es.foldl stepSR m

/-- The aggregate state is WAITING iff the waiting set is non-empty. -/
def waitingConsistent (m : Manager) : Prop :=
  m.store.playState = PlayState.WAITING ↔ m.videosWaiting ≠ []

instance (m : Manager) : Decidable (waitingConsistent m) := by
  unfold waitingConsistent; infer_instance

/-- Strengthened invariant closed under stall/ready notifications: waiting-set
consistency plus the discipline of the play-state backup. -/
def goodSR (m : Manager) : Prop :=
  (m.store.playState = PlayState.WAITING ↔ m.videosWaiting ≠ []) ∧
  (m.videosWaiting = [] →
    m.backupPlayState = none ∧ m.store.playState ≠ PlayState.FINISHED) ∧
  (m.videosWaiting ≠ [] → ∃ s, m.backupPlayState = some s ∧
    s ≠ PlayState.WAITING ∧ s ≠ PlayState.FINISHED)

/-! Helper lemmas: how each operation acts on the individual state fields. -/

theorem anyWaiting_eq_false_iff (m : Manager) :
    anyWaiting m = false ↔ m.videosWaiting = [] := by
  simp [anyWaiting, List.length_pos, List.isEmpty_iff]

theorem anyWaiting_eq_true_iff (m : Manager) :
    anyWaiting m = true ↔ m.videosWaiting ≠ [] := by
  simp [anyWaiting, List.length_pos]

theorem mem_setAdd (s : List Nat) (v w : Nat) :
    w ∈ setAdd s v ↔ w ∈ s ∨ w = v := by
  unfold setAdd
  split
  · constructor
    · exact Or.inl
    · rintro (h | rfl) <;> assumption
  · simp

theorem setAdd_ne_nil (s : List Nat) (v : Nat) : setAdd s v ≠ [] := by
  unfold setAdd
  split
  · intro h; subst h; simp_all
  · simp

theorem mem_setDelete (s : List Nat) (v w : Nat) :
    w ∈ setDelete s v ↔ w ∈ s ∧ w ≠ v := by
  simp [setDelete]

@[simp] theorem backupPlayStateOp_videos (m : Manager) :
    (backupPlayStateOp m).videos = m.videos := by
  unfold backupPlayStateOp; split <;> rfl

@[simp] theorem backupPlayStateOp_videosWaiting (m : Manager) :
    (backupPlayStateOp m).videosWaiting = m.videosWaiting := by
  unfold backupPlayStateOp; split <;> rfl

@[simp] theorem backupPlayStateOp_store (m : Manager) :
    (backupPlayStateOp m).store = m.store := by
  unfold backupPlayStateOp; split <;> rfl

@[simp] theorem backupPlayStateOp_times (m : Manager) :
    (backupPlayStateOp m).times = m.times := by
  unfold backupPlayStateOp; split <;> rfl

@[simp] theorem backupPlayStateOp_readyCallbacks (m : Manager) :
    (backupPlayStateOp m).readyCallbacks = m.readyCallbacks := by
  unfold backupPlayStateOp; split <;> rfl

@[simp] theorem backupPlayStateOp_videoBufferPositions (m : Manager) :
    (backupPlayStateOp m).videoBufferPositions = m.videoBufferPositions := by
  unfold backupPlayStateOp; split <;> rfl

@[simp] theorem backupStep_videos (m : Manager) :
    (backupStep m).videos = m.videos := by
  unfold backupStep; split <;> simp

@[simp] theorem backupStep_videosWaiting (m : Manager) :
    (backupStep m).videosWaiting = m.videosWaiting := by
  unfold backupStep; split <;> simp

@[simp] theorem backupStep_store (m : Manager) :
    (backupStep m).store = m.store := by
  unfold backupStep; split <;> simp

@[simp] theorem backupStep_times (m : Manager) :
    (backupStep m).times = m.times := by
  unfold backupStep; split <;> simp

@[simp] theorem backupStep_readyCallbacks (m : Manager) :
    (backupStep m).readyCallbacks = m.readyCallbacks := by
  unfold backupStep; split <;> simp

@[simp] theorem backupStep_videoBufferPositions (m : Manager) :
    (backupStep m).videoBufferPositions = m.videoBufferPositions := by
  unfold backupStep; split <;> simp

@[simp] theorem addWaiting_videos (m : Manager) (v : Nat) :
    (addWaiting m v).videos = m.videos := rfl

@[simp] theorem addWaiting_videosWaiting (m : Manager) (v : Nat) :
    (addWaiting m v).videosWaiting = setAdd m.videosWaiting v := rfl

@[simp] theorem addWaiting_store (m : Manager) (v : Nat) :
    (addWaiting m v).store = m.store := rfl

@[simp] theorem addWaiting_times (m : Manager) (v : Nat) :
    (addWaiting m v).times = m.times := rfl

@[simp] theorem addWaiting_readyCallbacks (m : Manager) (v : Nat) :
    (addWaiting m v).readyCallbacks = m.readyCallbacks := rfl

@[simp] theorem addWaiting_backupPlayState (m : Manager) (v : Nat) :
    (addWaiting m v).backupPlayState = m.backupPlayState := rfl

@[simp] theorem addWaiting_videoBufferPositions (m : Manager) (v : Nat) :
    (addWaiting m v).videoBufferPositions = m.videoBufferPositions := rfl

@[simp] theorem publishWaiting_videos (m : Manager) :
    (publishWaiting m).videos = m.videos := by
  unfold publishWaiting; split <;> rfl

@[simp] theorem publishWaiting_videosWaiting (m : Manager) :
    (publishWaiting m).videosWaiting = m.videosWaiting := by
  unfold publishWaiting; split <;> rfl

@[simp] theorem publishWaiting_times (m : Manager) :
    (publishWaiting m).times = m.times := by
  unfold publishWaiting; split <;> rfl

@[simp] theorem publishWaiting_readyCallbacks (m : Manager) :
    (publishWaiting m).readyCallbacks = m.readyCallbacks := by
  unfold publishWaiting; split <;> rfl

@[simp] theorem publishWaiting_backupPlayState (m : Manager) :
    (publishWaiting m).backupPlayState = m.backupPlayState := by
  unfold publishWaiting; split <;> rfl

@[simp] theorem publishWaiting_videoBufferPositions (m : Manager) :
    (publishWaiting m).videoBufferPositions = m.videoBufferPositions := by
  unfold publishWaiting; split <;> rfl

theorem publishWaiting_playState (m : Manager) :
    (publishWaiting m).store.playState =
      if m.store.playState = PlayState.FINISHED then m.store.playState
      else PlayState.WAITING := by
  unfold publishWaiting; split <;> simp_all [setPlayState]

theorem backupPlayStateOp_backup (m : Manager) :
    (backupPlayStateOp m).backupPlayState =
      if m.store.playState = PlayState.WAITING then m.backupPlayState
      else some m.store.playState := by
  unfold backupPlayStateOp; split <;> simp_all

theorem setWaiting_videos (m : Manager) (v : Nat) :
    (setWaiting m v).videos = m.videos := by
  simp [setWaiting]

theorem setWaiting_videosWaiting (m : Manager) (v : Nat) :
    (setWaiting m v).videosWaiting = setAdd m.videosWaiting v := by
  simp [setWaiting]

theorem setWaiting_times (m : Manager) (v : Nat) :
    (setWaiting m v).times = m.times := by
  simp [setWaiting]

theorem setWaiting_readyCallbacks (m : Manager) (v : Nat) :
    (setWaiting m v).readyCallbacks = m.readyCallbacks := by
  simp [setWaiting]

theorem setWaiting_videoBufferPositions (m : Manager) (v : Nat) :
    (setWaiting m v).videoBufferPositions = m.videoBufferPositions := by
  simp [setWaiting]

theorem setWaiting_playState (m : Manager) (v : Nat) :
    (setWaiting m v).store.playState =
      if m.store.playState = PlayState.FINISHED then m.store.playState
      else PlayState.WAITING := by
  have h := publishWaiting_playState (addWaiting (backupStep m) v)
  simpa [setWaiting] using h

theorem setWaiting_backup (m : Manager) (v : Nat) :
    (setWaiting m v).backupPlayState =
      if anyWaiting m = true then m.backupPlayState
      else if m.store.playState = PlayState.WAITING then m.backupPlayState
      else some m.store.playState := by
  have h : (setWaiting m v).backupPlayState = (backupStep m).backupPlayState := by
    simp [setWaiting]
  rw [h]
  unfold backupStep
  rcases hb : anyWaiting m with _ | _
  · simp [hb, backupPlayStateOp_backup]
  · simp [hb]

@[simp] theorem restorePlayState_videos (m : Manager) :
    (restorePlayState m).videos = m.videos := by
  unfold restorePlayState
  rcases hb : m.backupPlayState with _ | s
  · rfl
  · split <;> first | rfl | (split <;> rfl)

@[simp] theorem restorePlayState_videosWaiting (m : Manager) :
    (restorePlayState m).videosWaiting = m.videosWaiting := by
  unfold restorePlayState
  rcases hb : m.backupPlayState with _ | s
  · rfl
  · split <;> first | rfl | (split <;> rfl)

@[simp] theorem restorePlayState_times (m : Manager) :
    (restorePlayState m).times = m.times := by
  unfold restorePlayState
  rcases hb : m.backupPlayState with _ | s
  · rfl
  · split <;> first | rfl | (split <;> rfl)

@[simp] theorem restorePlayState_readyCallbacks (m : Manager) :
    (restorePlayState m).readyCallbacks = m.readyCallbacks := by
  unfold restorePlayState
  rcases hb : m.backupPlayState with _ | s
  · rfl
  · split <;> first | rfl | (split <;> rfl)

@[simp] theorem restorePlayState_videoBufferPositions (m : Manager) :
    (restorePlayState m).videoBufferPositions = m.videoBufferPositions := by
  unfold restorePlayState
  rcases hb : m.backupPlayState with _ | s
  · rfl
  · split <;> first | rfl | (split <;> rfl)

theorem restorePlayState_of_none (m : Manager) (h : m.backupPlayState = none) :
    restorePlayState m = m := by
  unfold restorePlayState
  rw [h]

theorem restorePlayState_of_some_waiting (m : Manager) (s : PlayState)
    (h : m.backupPlayState = some s) (hps : m.store.playState = PlayState.WAITING) :
    (restorePlayState m).store.playState = s ∧
    (restorePlayState m).backupPlayState = none := by
  unfold restorePlayState
  rw [h]
  simp [hps, setPlayState]

theorem restorePlayState_of_some_not_waiting (m : Manager) (s : PlayState)
    (h : m.backupPlayState = some s) (hps : m.store.playState ≠ PlayState.WAITING) :
    (restorePlayState m).store = m.store ∧
    (restorePlayState m).backupPlayState = none := by
  unfold restorePlayState
  rw [h]
  simp [hps]

theorem videoReady_not_mem (m : Manager) (v : Nat) (h : v ∉ m.videosWaiting) :
    videoReady m v = (m, []) := by
  unfold videoReady
  rw [if_neg h]

theorem videoReady_fst_still (m : Manager) (v : Nat) (hmem : v ∈ m.videosWaiting)
    (hne : setDelete m.videosWaiting v ≠ []) :
    videoReady m v = ({ m with videosWaiting := setDelete m.videosWaiting v }, []) := by
  unfold videoReady
  rw [if_pos hmem]
  have ha : anyWaiting { m with videosWaiting := setDelete m.videosWaiting v } = true :=
    (anyWaiting_eq_true_iff _).mpr hne
  simp [ha]

theorem videoReady_empties (m : Manager) (v : Nat) (hmem : v ∈ m.videosWaiting)
    (hlast : setDelete m.videosWaiting v = []) :
    videoReady m v =
      (let m2 := restorePlayState { m with videosWaiting := setDelete m.videosWaiting v }
       ({ m2 with readyCallbacks := m2.readyCallbacks.filter (fun c => c.2 = false) },
        m2.readyCallbacks.map Prod.fst)) := by
  unfold videoReady
  rw [if_pos hmem]
  have ha : anyWaiting { m with videosWaiting := setDelete m.videosWaiting v } = false :=
    (anyWaiting_eq_false_iff _).mpr hlast
  simp [ha]

theorem minList_le (xs : List ℚ) : ∀ b ∈ xs, minList xs ≤ b := by
  induction xs with
  | nil => intro b hb; cases hb
  | cons x rest ih =>
    intro b hb
    cases rest with
    | nil =>
      rcases List.mem_cons.mp hb with h | h
      · subst h; exact le_refl _
      · cases h
    | cons y t =>
      rw [minList]
      rcases List.mem_cons.mp hb with h | h
      · subst h; exact min_le_left _ _
      · exact le_trans (min_le_right _ _) (ih b h)

theorem minList_mem (xs : List ℚ) (h : xs ≠ []) : minList xs ∈ xs := by
  induction xs with
  | nil => exact absurd rfl h
  | cons x rest ih =>
    cases rest with
    | nil => simp [minList]
    | cons y t =>
      rw [minList]
      rcases min_cases x (minList (y :: t)) with ⟨he, _⟩ | ⟨he, _⟩
      · rw [he]; exact List.mem_cons_self _ _
      · rw [he]; exact List.mem_cons_of_mem _ (ih (by simp))

theorem jsIndexOf_zero_iff (v : Nat) (l : List Nat) :
    jsIndexOf v l = 0 ↔ l.head? = some v := by
  cases l with
  | nil => simp [jsIndexOf]
  | cons x xs =>
    unfold jsIndexOf
    by_cases hx : x = v
    · subst hx; simp
    · rw [if_neg hx]
      constructor
      · intro h
        split at h
        · exact absurd h (by decide)
        · next hr => exact absurd (by omega : jsIndexOf v xs = -1) hr
      · intro h
        simp at h
        exact absurd h hx

theorem bufferedContains_iff (buffered : List (ℚ × ℚ)) (t : ℚ) :
    bufferedContains buffered t = true ↔ ∃ r ∈ buffered, r.1 ≤ t ∧ t < r.2 := by
  simp [bufferedContains]

theorem restorePlayState_backup (m : Manager) :
    (restorePlayState m).backupPlayState = none := by
  unfold restorePlayState
  rcases hb : m.backupPlayState with _ | s
  · exact hb
  · split <;> first | (split <;> rfl) | rfl | simp_all

theorem pauseCorrect_times_apply (mid : Nat) (acc : Manager) (v w : Nat) :
    (pauseCorrect mid acc v).times w =
      if w = v then acc.times mid else acc.times w := rfl

@[simp] theorem pauseCorrect_videos (mid : Nat) (acc : Manager) (v : Nat) :
    (pauseCorrect mid acc v).videos = acc.videos := rfl

@[simp] theorem pauseCorrect_videosWaiting (mid : Nat) (acc : Manager) (v : Nat) :
    (pauseCorrect mid acc v).videosWaiting = acc.videosWaiting := rfl

@[simp] theorem pauseCorrect_store (mid : Nat) (acc : Manager) (v : Nat) :
    (pauseCorrect mid acc v).store = acc.store := rfl

@[simp] theorem pauseCorrect_videoBufferPositions (mid : Nat) (acc : Manager) (v : Nat) :
    (pauseCorrect mid acc v).videoBufferPositions = acc.videoBufferPositions := rfl

@[simp] theorem pauseCorrect_backupPlayState (mid : Nat) (acc : Manager) (v : Nat) :
    (pauseCorrect mid acc v).backupPlayState = acc.backupPlayState := rfl

@[simp] theorem pauseCorrect_readyCallbacks (mid : Nat) (acc : Manager) (v : Nat) :
    (pauseCorrect mid acc v).readyCallbacks = acc.readyCallbacks := rfl

theorem correctVideo_times_apply (mid : Nat) (acc : Manager) (v w : Nat) :
    (correctVideo mid acc v).times w =
      if w = v then acc.times mid else acc.times w := by
  unfold correctVideo
  rw [pauseCorrect_times_apply, setWaiting_times]

theorem correctVideo_videos (mid : Nat) (acc : Manager) (v : Nat) :
    (correctVideo mid acc v).videos = acc.videos := by
  unfold correctVideo
  rw [pauseCorrect_videos, setWaiting_videos]

theorem correctVideo_videosWaiting (mid : Nat) (acc : Manager) (v : Nat) :
    (correctVideo mid acc v).videosWaiting = setAdd acc.videosWaiting v := by
  unfold correctVideo
  rw [pauseCorrect_videosWaiting, setWaiting_videosWaiting]

theorem foldl_pauseCorrect (mid : Nat) (L : List Nat) :
    ∀ acc : Manager,
    (L.foldl (pauseCorrect mid) acc).videosWaiting = acc.videosWaiting ∧
    (L.foldl (pauseCorrect mid) acc).store = acc.store ∧
    (L.foldl (pauseCorrect mid) acc).times mid = acc.times mid ∧
    (∀ w, w ∈ L → (L.foldl (pauseCorrect mid) acc).times w = acc.times mid) ∧
    (∀ w, w ∉ L → (L.foldl (pauseCorrect mid) acc).times w = acc.times w) := by
  induction L with
  | nil =>
    intro acc
    exact ⟨rfl, rfl, rfl, fun w hw => absurd hw (by simp), fun w _ => rfl⟩
  | cons v rest ih =>
    intro acc
    obtain ⟨ihW, ihS, ihM, ihIn, ihOut⟩ := ih (pauseCorrect mid acc v)
    have hAm : (pauseCorrect mid acc v).times mid = acc.times mid := by
      rw [pauseCorrect_times_apply]; exact ite_self _
    refine ⟨by rw [List.foldl_cons, ihW]; rfl, by rw [List.foldl_cons, ihS]; rfl,
      by rw [List.foldl_cons, ihM, hAm], ?_, ?_⟩
    · intro w hw
      rw [List.foldl_cons]
      by_cases hr : w ∈ rest
      · rw [ihIn w hr, hAm]
      · have hwv : w = v := by
          rcases List.mem_cons.mp hw with h | h
          · exact h
          · exact absurd h hr
        rw [ihOut w hr, hwv, pauseCorrect_times_apply, if_pos rfl]
    · intro w hw
      have hwv : w ≠ v := fun h => hw (h ▸ List.mem_cons_self v rest)
      have hwr : w ∉ rest := fun h => hw (List.mem_cons_of_mem _ h)
      rw [List.foldl_cons, ihOut w hwr, pauseCorrect_times_apply, if_neg hwv]

theorem foldl_correctVideo (mid : Nat) (L : List Nat) :
    ∀ acc : Manager,
    (L.foldl (correctVideo mid) acc).videos = acc.videos ∧
    (∀ w, w ∈ (L.foldl (correctVideo mid) acc).videosWaiting ↔
      w ∈ acc.videosWaiting ∨ w ∈ L) ∧
    (L.foldl (correctVideo mid) acc).times mid = acc.times mid ∧
    (∀ w, w ∈ L → (L.foldl (correctVideo mid) acc).times w = acc.times mid) ∧
    (∀ w, w ∉ L → (L.foldl (correctVideo mid) acc).times w = acc.times w) := by
  induction L with
  | nil =>
    intro acc
    exact ⟨rfl, fun w => by simp, rfl, fun w hw => absurd hw (by simp),
      fun w _ => rfl⟩
  | cons v rest ih =>
    intro acc
    obtain ⟨ihV, ihW, ihM, ihIn, ihOut⟩ := ih (correctVideo mid acc v)
    have hAm : (correctVideo mid acc v).times mid = acc.times mid := by
      rw [correctVideo_times_apply]; exact ite_self _
    refine ⟨by rw [List.foldl_cons, ihV, correctVideo_videos], ?_,
      by rw [List.foldl_cons, ihM, hAm], ?_, ?_⟩
    · intro w
      rw [List.foldl_cons, ihW w, correctVideo_videosWaiting, mem_setAdd]
      constructor
      · rintro ((h | h) | h)
        · exact Or.inl h
        · exact Or.inr (h ▸ List.mem_cons_self v rest)
        · exact Or.inr (List.mem_cons_of_mem _ h)
      · rintro (h | h)
        · exact Or.inl (Or.inl h)
        · rcases List.mem_cons.mp h with h | h
          · exact Or.inl (Or.inr h)
          · exact Or.inr h
    · intro w hw
      rw [List.foldl_cons]
      by_cases hr : w ∈ rest
      · rw [ihIn w hr, hAm]
      · have hwv : w = v := by
          rcases List.mem_cons.mp hw with h | h
          · exact h
          · exact absurd h hr
        rw [ihOut w hr, hwv, correctVideo_times_apply, if_pos rfl]
    · intro w hw
      have hwv : w ≠ v := fun h => hw (h ▸ List.mem_cons_self v rest)
      have hwr : w ∉ rest := fun h => hw (List.mem_cons_of_mem _ h)
      rw [List.foldl_cons, ihOut w hwr, correctVideo_times_apply, if_neg hwv]

theorem videoReady_fields_empties (m : Manager) (v : Nat)
    (hmem : v ∈ m.videosWaiting) (hlast : setDelete m.videosWaiting v = []) :
    (videoReady m v).1.videosWaiting = [] ∧
    (videoReady m v).1.backupPlayState = none ∧
    (∀ s, m.backupPlayState = some s → m.store.playState = PlayState.WAITING →
      (videoReady m v).1.store.playState = s) := by
  rw [videoReady_empties m v hmem hlast]
  refine ⟨?_, ?_, ?_⟩
  · simp [hlast]
  · exact restorePlayState_backup _
  · intro s hb hps
    exact (restorePlayState_of_some_waiting
      { m with videosWaiting := setDelete m.videosWaiting v } s hb hps).1

theorem goodSR_stepSR (m : Manager) (e : SREvent) (h : goodSR m) :
    goodSR (stepSR m e) := by
  obtain ⟨hiff, hemp, hne⟩ := h
  cases e with
  | stall v =>
    show goodSR (setWaiting m v)
    have hsne : (setWaiting m v).videosWaiting ≠ [] := by
      rw [setWaiting_videosWaiting]; exact setAdd_ne_nil _ _
    by_cases hw : m.videosWaiting = []
    · obtain ⟨hb, hfin⟩ := hemp hw
      have hps : m.store.playState ≠ PlayState.WAITING := fun hx => (hiff.mp hx) hw
      have hany : anyWaiting m = false := (anyWaiting_eq_false_iff m).mpr hw
      have hps' : (setWaiting m v).store.playState = PlayState.WAITING := by
        rw [setWaiting_playState, if_neg hfin]
      have hb' : (setWaiting m v).backupPlayState = some m.store.playState := by
        rw [setWaiting_backup, hany]
        simp [hps]
      exact ⟨⟨fun _ => hsne, fun _ => hps'⟩, fun hx => absurd hx hsne,
        fun _ => ⟨m.store.playState, hb', hps, hfin⟩⟩
    · have hps : m.store.playState = PlayState.WAITING := hiff.mpr hw
      obtain ⟨s, hbs, hsw, hsf⟩ := hne hw
      have hany : anyWaiting m = true := (anyWaiting_eq_true_iff m).mpr hw
      have hps' : (setWaiting m v).store.playState = PlayState.WAITING := by
        rw [setWaiting_playState, if_neg (by rw [hps]; decide)]
      have hb' : (setWaiting m v).backupPlayState = m.backupPlayState := by
        rw [setWaiting_backup, hany]; simp
      exact ⟨⟨fun _ => hsne, fun _ => hps'⟩, fun hx => absurd hx hsne,
        fun _ => ⟨s, by rw [hb']; exact hbs, hsw, hsf⟩⟩
  | ready v =>
    show goodSR (videoReady m v).1
    by_cases hmem : v ∈ m.videosWaiting
    · have hwne : m.videosWaiting ≠ [] := fun hx => by
        rw [hx] at hmem; cases hmem
      have hps : m.store.playState = PlayState.WAITING := hiff.mpr hwne
      obtain ⟨s, hbs, hsw, hsf⟩ := hne hwne
      by_cases hlast : setDelete m.videosWaiting v = []
      · obtain ⟨hW', hB', hPS⟩ := videoReady_fields_empties m v hmem hlast
        have hps' : (videoReady m v).1.store.playState = s := hPS s hbs hps
        refine ⟨⟨fun hx => absurd (hps' ▸ hx : s = PlayState.WAITING) hsw,
          fun hx => absurd hW' hx⟩, fun _ => ⟨hB', by rw [hps']; exact hsf⟩,
          fun hx => absurd hW' hx⟩
      · rw [videoReady_fst_still m v hmem hlast]
        exact ⟨⟨fun _ => hlast, fun _ => hps⟩, fun hx => absurd hx hlast,
          fun _ => ⟨s, hbs, hsw, hsf⟩⟩
    · rw [videoReady_not_mem m v hmem]
      exact ⟨hiff, hemp, hne⟩

theorem goodSR_runSR (es : List SREvent) :
    ∀ m : Manager, goodSR m → goodSR (runSR m es) := by
  induction es with
  | nil => intro m h; exact h
  | cons e rest ih =>
    intro m h
    exact ih (stepSR m e) (goodSR_stepSR m e h)

/-! Concrete instances used by witnesses and counterexamples. -/

/-- A store in the PLAYING state with no trim bounds, not live. -/
def storePlaying : StoreState :=
  { playState := PlayState.PLAYING, position := 0, duration := 100,
    bufferPosition := 0, trimStart := none, trimEnd := none, live := false }

/-- Two registered elements, nothing waiting, two ready callbacks. -/
def baseM : Manager :=
  { videos := [1, 2], videosWaiting := [], videoBufferPositions := [],
    readyCallbacks := [(10, false), (11, true)], backupPlayState := none,
    store := storePlaying, times := fun _ => 0 }

/-! Claim theorems. -/

/-- C1 (counterexample): from a consistent state whose play state became
FINISHED through the engine's own end-of-stream handler (no external play
state write), one stall notification leaves the waiting set non-empty while
the published play state stays FINISHED, so the unrestricted biconditional
of the claim fails. -/
theorem waiting_consistency_cex :
    waitingConsistent baseM ∧ waitingConsistent (videoEnded baseM 1) ∧
    ¬ waitingConsistent (runSR (videoEnded baseM 1) [SREvent.stall 2]) := by
  decide

/-- C1 (amended): starting from any state with an empty waiting set, no
backed-up play state, and play state PLAYING or PAUSED, every sequence of
stall/ready notifications (across any elements, with no external writes to
the store's play state) preserves: the published play state is WAITING iff
the waiting set is non-empty. -/
theorem waiting_consistency (m : Manager) (hW : m.videosWaiting = [])
    (hB : m.backupPlayState = none)
    (hP : m.store.playState = PlayState.PLAYING ∨
      m.store.playState = PlayState.PAUSED)
    (es : List SREvent) : waitingConsistent (runSR m es) := by
  have hg : goodSR m := by
    refine ⟨⟨?_, fun hx => absurd hW hx⟩, fun _ => ⟨hB, ?_⟩,
      fun hx => absurd hW hx⟩
    · intro hx
      rcases hP with h | h <;> rw [h] at hx <;> exact absurd hx (by decide)
    · rcases hP with h | h <;> rw [h] <;> decide
  exact (goodSR_runSR es m hg).1

/-- C1 (witness): the invariant evaluated after a concrete stall/ready
sequence on a concrete engine state. -/
theorem waiting_consistency_witness :
    waitingConsistent (runSR baseM
      [SREvent.stall 1, SREvent.stall 2, SREvent.ready 1, SREvent.ready 2]) :=
  waiting_consistency baseM rfl rfl (Or.inl rfl) _

/-- A single registered element that has reported buffering progress. -/
def mProgC : Manager :=
  videoProgress { baseM with videos := [5] } 5 [(0, 10)]

/-- C2 (counterexample): after element 5 reports buffering progress and is
then unregistered, the registry and waiting set no longer contain it, but the
buffer-position map still holds its entry, refuting the claim's third
conjunct. -/
theorem unregister_buffer_cex :
    5 ∉ (unregisterVideo mProgC 5).videos ∧
    5 ∉ (unregisterVideo mProgC 5).videosWaiting ∧
    (unregisterVideo mProgC 5).videoBufferPositions = [(5, 10)] := by
  decide

/-- C2 (amended): after unregister(e) the registry no longer contains e and
the waiting set no longer contains e, but the buffer-position map is left
entirely unchanged, so a stale entry for e keeps contributing to the
aggregate minimum computed by later buffering-progress notifications. -/
theorem unregister_effect (m : Manager) (v : Nat) :
    v ∉ (unregisterVideo m v).videos ∧
    v ∉ (unregisterVideo m v).videosWaiting ∧
    (unregisterVideo m v).videoBufferPositions = m.videoBufferPositions := by
  refine ⟨?_, ?_, rfl⟩
  · intro hx
    simp [unregisterVideo, List.mem_filter] at hx
  · intro hx
    simp [unregisterVideo, setDelete, List.mem_filter] at hx

theorem syncVideosTick_paused (thr : ℚ) (m : Manager)
    (hW : anyWaiting m = false) (hL : m.store.live = false)
    (hp : m.store.playState = PlayState.PAUSED) :
    syncVideosTick thr m =
      (m.videos.filter
        (fun v => decide (m.times v ≠ m.times (m.videos.headD 0)))).foldl
        (pauseCorrect (m.videos.headD 0)) m := by
  unfold syncVideosTick
  rw [if_pos ⟨hW, hL⟩]
  simp [hp]

theorem syncVideosTick_playing (thr : ℚ) (m : Manager)
    (hW : anyWaiting m = false) (hL : m.store.live = false)
    (hp : m.store.playState ≠ PlayState.PAUSED) :
    syncVideosTick thr m =
      (m.videos.filter
        (fun v => decide (thr < |m.times v - m.times (m.videos.headD 0)|))).foldl
        (correctVideo (m.videos.headD 0)) m := by
  unfold syncVideosTick
  rw [if_pos ⟨hW, hL⟩]
  simp [hp]

/-- C3: on a drift-correction tick with no element waiting and the store not
live, with master position `masterTime m`: while PAUSED, every registered
element whose position differs from the master's gets the master's position,
matching positions stay, and neither the waiting set nor the store changes;
otherwise an element's position is set to the master's iff its absolute
difference from the master exceeds the threshold, every corrected element is
marked waiting (the `correctVideo` step applies `setWaiting` before the
position write), and uncorrected elements keep their position and are not
marked waiting. -/
theorem drift_correction (thr : ℚ) (m : Manager)
    (hW : anyWaiting m = false) (hL : m.store.live = false) :
    (m.store.playState = PlayState.PAUSED →
      (∀ v, v ∈ m.videos → m.times v ≠ masterTime m →
        (syncVideosTick thr m).times v = masterTime m) ∧
      (∀ v, m.times v = masterTime m →
        (syncVideosTick thr m).times v = m.times v) ∧
      (syncVideosTick thr m).videosWaiting = m.videosWaiting ∧
      (syncVideosTick thr m).store = m.store) ∧
    (m.store.playState ≠ PlayState.PAUSED →
      (∀ v, v ∈ m.videos → thr < |m.times v - masterTime m| →
        (syncVideosTick thr m).times v = masterTime m ∧
        v ∈ (syncVideosTick thr m).videosWaiting) ∧
      (∀ v, ¬ thr < |m.times v - masterTime m| →
        (syncVideosTick thr m).times v = m.times v ∧
        v ∉ (syncVideosTick thr m).videosWaiting)) := by
  have hWnil : m.videosWaiting = [] := (anyWaiting_eq_false_iff m).mp hW
  constructor
  · intro hp
    rw [syncVideosTick_paused thr m hW hL hp]
    obtain ⟨fW, fS, fM, fIn, fOut⟩ :=
      foldl_pauseCorrect (m.videos.headD 0)
        (m.videos.filter
          (fun v => decide (m.times v ≠ m.times (m.videos.headD 0)))) m
    refine ⟨?_, ?_, fW, fS⟩
    · intro v hv hne
      exact fIn v (List.mem_filter.mpr ⟨hv, decide_eq_true hne⟩)
    · intro v he
      refine fOut v ?_
      intro hx
      have := (List.mem_filter.mp hx).2
      rw [decide_eq_true_iff] at this
      exact this he
  · intro hp
    rw [syncVideosTick_playing thr m hW hL hp]
    obtain ⟨fV, fW, fM, fIn, fOut⟩ :=
      foldl_correctVideo (m.videos.headD 0)
        (m.videos.filter
          (fun v => decide (thr < |m.times v - m.times (m.videos.headD 0)|))) m
    constructor
    · intro v hv hgt
      refine ⟨fIn v (List.mem_filter.mpr ⟨hv, decide_eq_true hgt⟩), ?_⟩
      exact (fW v).mpr (Or.inr (List.mem_filter.mpr ⟨hv, decide_eq_true hgt⟩))
    · intro v hle
      have hnotin : v ∉ m.videos.filter
          (fun v => decide (thr < |m.times v - m.times (m.videos.headD 0)|)) := by
        intro hx
        have := (List.mem_filter.mp hx).2
        rw [decide_eq_true_iff] at this
        exact hle this
      refine ⟨fOut v hnotin, ?_⟩
      intro hx
      rcases (fW v).mp hx with h | h
      · rw [hWnil] at h; cases h
      · exact hnotin h

/-- A store in the PAUSED state. -/
def storePaused : StoreState :=
  { storePlaying with playState := PlayState.PAUSED }

/-- A paused two-element state where element 2 drifted 10 units ahead. -/
def mPausedC : Manager :=
  { baseM with store := storePaused, times := fun v => if v = 2 then 10 else 0 }

/-- A playing two-element state where element 2 drifted 10 units ahead. -/
def mPlayC : Manager :=
  { baseM with times := fun v => if v = 2 then 10 else 0 }

/-- C3 (witness): the drift-correction theorem evaluated on concrete paused
and playing states with threshold 1. -/
theorem drift_correction_witness :
    (syncVideosTick 1 mPausedC).times 2 = masterTime mPausedC ∧
    (syncVideosTick 1 mPlayC).times 2 = masterTime mPlayC ∧
    2 ∈ (syncVideosTick 1 mPlayC).videosWaiting := by
  refine ⟨?_, ?_, ?_⟩
  · exact ((drift_correction 1 mPausedC rfl rfl).1 rfl).1 2 (by decide)
      (by norm_num [mPausedC, baseM, masterTime])
  · exact (((drift_correction 1 mPlayC rfl rfl).2 (by decide)).1 2
      (by decide) (by norm_num [mPlayC, baseM, masterTime])).1
  · exact (((drift_correction 1 mPlayC rfl rfl).2 (by decide)).1 2
      (by decide) (by norm_num [mPlayC, baseM, masterTime])).2

theorem mapSet_ne_nil (mm : List (Nat × ℚ)) (k : Nat) (x : ℚ) :
    mapSet mm k x ≠ [] := by
  unfold mapSet
  split
  · next hany =>
    intro h
    rw [List.map_eq_nil_iff] at h
    subst h
    simp at hany
  · simp

theorem videoProgress_eq (m : Manager) (v : Nat) (buffered : List (ℚ × ℚ))
    (h1 : 0 < buffered.length) :
    videoProgress m v buffered =
      (fun m1 : Manager =>
        if 0 < m1.videoBufferPositions.length then
          let globalBuffer := minList (m1.videoBufferPositions.map Prod.snd)
          { m1 with store := setBufferPosition m1.store globalBuffer }
        else m1)
      (match findCurrentBuffer buffered (m.times v) with
       | some b => { m with videoBufferPositions := mapSet m.videoBufferPositions v b }
       | none => m) := by
  unfold videoProgress
  rw [if_pos h1]

/-- C4: whenever a buffering-progress notification publishes an aggregate
buffer position (the element reported a non-empty buffered-ranges list and the
per-element map is non-empty afterwards), the published value equals the
minimum over all entries currently in the map; in particular the published
value is one of the recorded entries and is a lower bound of all of them, so
an element with no recorded entry contributes nothing to it. -/
theorem buffer_aggregation (m : Manager) (v : Nat) (buffered : List (ℚ × ℚ))
    (h1 : buffered ≠ [])
    (h2 : (videoProgress m v buffered).videoBufferPositions ≠ []) :
    (videoProgress m v buffered).store.bufferPosition =
      minList ((videoProgress m v buffered).videoBufferPositions.map Prod.snd) ∧
    (videoProgress m v buffered).store.bufferPosition
      ∈ (videoProgress m v buffered).videoBufferPositions.map Prod.snd ∧
    ∀ b ∈ (videoProgress m v buffered).videoBufferPositions.map Prod.snd,
      (videoProgress m v buffered).store.bufferPosition ≤ b := by
  have hlen : 0 < buffered.length := List.length_pos.mpr h1
  have hE : (videoProgress m v buffered).store.bufferPosition =
      minList ((videoProgress m v buffered).videoBufferPositions.map Prod.snd) := by
    rw [videoProgress_eq m v buffered hlen] at h2 ⊢
    rcases hf : findCurrentBuffer buffered (m.times v) with _ | b
    · simp only [hf] at h2 ⊢
      have hpos : 0 < m.videoBufferPositions.length := by
        by_contra hx
        rw [if_neg hx] at h2
        exact h2 (List.length_eq_zero.mp (by omega))
      rw [if_pos hpos]
      simp [setBufferPosition]
    · simp only [hf] at h2 ⊢
      have hpos : 0 < (mapSet m.videoBufferPositions v b).length :=
        List.length_pos.mpr (mapSet_ne_nil _ _ _)
      rw [if_pos hpos]
      simp [setBufferPosition]
  have hmapne : (videoProgress m v buffered).videoBufferPositions.map Prod.snd ≠ [] := by
    intro hx
    exact h2 (List.map_eq_nil_iff.mp hx)
  exact ⟨hE, hE ▸ minList_mem _ hmapne, fun b hb => hE ▸ minList_le _ b hb⟩

/-- A state whose buffer-position map already holds an entry for element 2. -/
def mBufC : Manager :=
  { baseM with videoBufferPositions := [(2, 4)] }

/-- C4 (witness): element 1 reports progress with buffer end 10 while element
2 has recorded position 4; the published aggregate is the minimum 4. -/
theorem buffer_aggregation_witness :
    (videoProgress mBufC 1 [(0, 10)]).store.bufferPosition = 4 := by
  have h := buffer_aggregation mBufC 1 [(0, 10)] (by decide) (by decide)
  rw [h.1]
  decide

/-- C5: backing up the play state while the store's play state is WAITING
changes nothing (in particular it does not overwrite an existing backup);
restoring while a backup exists but the play state is no longer WAITING
leaves the whole store unchanged and still clears the backup. -/
theorem backup_restore_idempotence (m : Manager) :
    (m.store.playState = PlayState.WAITING → backupPlayStateOp m = m) ∧
    (∀ s, m.backupPlayState = some s →
      m.store.playState ≠ PlayState.WAITING →
      (restorePlayState m).store = m.store ∧
      (restorePlayState m).backupPlayState = none) := by
  constructor
  · intro hps
    unfold backupPlayStateOp
    rw [if_neg (by simp [hps])]
  · intro s hb hps
    exact restorePlayState_of_some_not_waiting m s hb hps

/-- A store in the WAITING state. -/
def storeWaiting : StoreState :=
  { storePlaying with playState := PlayState.WAITING }

/-- A WAITING store with an existing backup. -/
def mWaitC : Manager :=
  { baseM with store := storeWaiting, backupPlayState := some PlayState.PAUSED }

/-- A PLAYING store with a stale backup. -/
def mRestC : Manager :=
  { baseM with backupPlayState := some PlayState.PAUSED }

/-- C5 (witness): the backup/restore theorem evaluated on concrete states. -/
theorem backup_restore_idempotence_witness :
    backupPlayStateOp mWaitC = mWaitC ∧
    (restorePlayState mRestC).store = mRestC.store ∧
    (restorePlayState mRestC).backupPlayState = none := by
  refine ⟨(backup_restore_idempotence mWaitC).1 rfl, ?_, ?_⟩
  · exact ((backup_restore_idempotence mRestC).2 PlayState.PAUSED rfl (by decide)).1
  · exact ((backup_restore_idempotence mRestC).2 PlayState.PAUSED rfl (by decide)).2

/-- A registry in which the same element occupies positions 0 and 1. -/
def mDupC : Manager :=
  { baseM with videos := [7, 7, 8] }

/-- C6 (counterexample): with registry [7, 7, 8] the element at position 0 is
7 and the element previously at position 1 is also 7; unregistering the
position-0 element removes every occurrence, so `isMaster` is false for the
element that was at position 1, refuting the promotion clause. -/
theorem mastery_promotion_cex :
    mDupC.videos[0]? = some 7 ∧ mDupC.videos[1]? = some 7 ∧
    isMaster (unregisterVideo mDupC 7) 7 = false := by
  decide

/-- C6 (amended): for every registry whose elements at positions 0 and 1 are
distinct, `isMaster(e)` is true iff e sits at position 0, and after
unregistering the position-0 element `isMaster` holds for the element that
was previously at position 1. -/
theorem mastery_invariant (m : Manager) (v a b : Nat)
    (hne : m.videos ≠ []) :
    (isMaster m v = true ↔ m.videos[0]? = some v) ∧
    (m.videos[0]? = some a → m.videos[1]? = some b → a ≠ b →
      isMaster (unregisterVideo m a) b = true) := by
  constructor
  · rw [isMaster, decide_eq_true_iff, jsIndexOf_zero_iff]
    cases m.videos <;> simp
  · intro h0 h1 hab
    cases hv : m.videos with
    | nil => exact absurd hv hne
    | cons x tail =>
      rw [hv] at h0 h1
      have hx : x = a := by simpa using h0
      cases ht : tail with
      | nil => rw [ht] at h1; simp at h1
      | cons y t =>
        have hy : y = b := by rw [ht] at h1; simpa using h1
        rw [isMaster, decide_eq_true_iff, jsIndexOf_zero_iff]
        show (unregisterVideo m a).videos.head? = some b
        unfold unregisterVideo
        simp only
        rw [hv, ht, hx, hy]
        rw [List.filter_cons, List.filter_cons]
        simp [Ne.symm hab]

/-- C6 (witness): the mastery invariant evaluated on the concrete registry
[1, 2], exercising both the biconditional and the promotion clause. -/
theorem mastery_invariant_witness :
    (isMaster baseM 1 = true ↔ baseM.videos[0]? = some 1) ∧
    isMaster (unregisterVideo baseM 1) 2 = true := by
  have h := mastery_invariant baseM 1 1 2 (by decide)
  exact ⟨h.1, h.2 rfl rfl (by decide)⟩

theorem belowTrim_eq_false (ts? : Option ℚ) (ct : ℚ)
    (hno : ∀ ts, ts? = some ts → ts ≠ 0 → ¬ ct < ts) :
    belowTrim ts? ct = false := by
  cases ts? with
  | none => rfl
  | some ts =>
    unfold belowTrim
    by_cases h0 : ts = 0
    · simp [h0]
    · simp [h0, hno ts rfl h0]

theorem aboveTrim_eq_false (te? : Option ℚ) (ct : ℚ)
    (hno : ∀ te, te? = some te → te ≠ 0 → ¬ te < ct) :
    aboveTrim te? ct = false := by
  cases te? with
  | none => rfl
  | some te =>
    unfold aboveTrim
    by_cases h0 : te = 0
    · simp [h0]
    · simp [h0, hno te rfl h0]

/-- A master whose trim end is the (falsy) value 0 and whose position is 5. -/
def storeTrimZero : StoreState :=
  { storePlaying with trimEnd := some 0 }

/-- A single master element at position 5 with trim end set to 0. -/
def mTrimC : Manager :=
  { baseM with videos := [3], store := storeTrimZero, times := fun _ => 5 }

/-- C7 (counterexample): the trim end is set (to 0) and the master position 5
lies above it, yet the time-update handler publishes 5 rather than the trim
end, because the JS truthiness test treats the bound 0 as unset. -/
theorem trim_clamping_cex :
    mTrimC.store.trimEnd = some 0 ∧ (0 : ℚ) < mTrimC.times 3 ∧
    isMaster mTrimC 3 = true ∧ anyWaiting mTrimC = false ∧
    (videoTimeUpdate mTrimC 3).store.position = 5 := by
  decide

/-- C7 (amended): on a master time update with no element waiting, a nonzero
trim start lying above the position makes the handler publish exactly the trim
start; failing that, a nonzero trim end lying below the position makes it
publish exactly the trim end; and when neither nonzero bound excludes the
position it is published unchanged (a bound equal to 0 acts as unset). -/
theorem trim_clamping (m : Manager) (v : Nat)
    (hM : isMaster m v = true) (hW : anyWaiting m = false) :
    (∀ ts, m.store.trimStart = some ts → ts ≠ 0 → m.times v < ts →
      (videoTimeUpdate m v).store.position = ts) ∧
    (∀ te, m.store.trimEnd = some te → te ≠ 0 → te < m.times v →
      (∀ ts, m.store.trimStart = some ts → ts ≠ 0 → ¬ m.times v < ts) →
      (videoTimeUpdate m v).store.position = te) ∧
    ((∀ ts, m.store.trimStart = some ts → ts ≠ 0 → ¬ m.times v < ts) →
     (∀ te, m.store.trimEnd = some te → te ≠ 0 → ¬ te < m.times v) →
      (videoTimeUpdate m v).store.position = m.times v) := by
  have hguard : isMaster m v = true ∧ anyWaiting m = false := ⟨hM, hW⟩
  refine ⟨?_, ?_, ?_⟩
  · intro ts hts h0 hlt
    unfold videoTimeUpdate
    rw [if_pos hguard]
    have hb : belowTrim m.store.trimStart (m.times v) = true := by
      rw [hts]; unfold belowTrim; simp [h0, hlt]
    rw [hb]
    simp [hts, setPosition]
  · intro te hte h0 hlt hno
    unfold videoTimeUpdate
    rw [if_pos hguard]
    rw [belowTrim_eq_false m.store.trimStart (m.times v) hno]
    have ha : aboveTrim m.store.trimEnd (m.times v) = true := by
      rw [hte]; unfold aboveTrim; simp [h0, hlt]
    rw [ha]
    simp [hte, setPosition]
  · intro hnoS hnoE
    unfold videoTimeUpdate
    rw [if_pos hguard]
    rw [belowTrim_eq_false m.store.trimStart (m.times v) hnoS]
    rw [aboveTrim_eq_false m.store.trimEnd (m.times v) hnoE]
    simp [setPosition]

/-- A trim window [2, 8] on a single master element. -/
def storeTrimWin : StoreState :=
  { storePlaying with trimStart := some 2, trimEnd := some 8 }

/-- Master position 1, below the trim start 2. -/
def mTrimLow : Manager :=
  { baseM with videos := [3], store := storeTrimWin, times := fun _ => 1 }

/-- Master position 9, above the trim end 8. -/
def mTrimHigh : Manager :=
  { baseM with videos := [3], store := storeTrimWin, times := fun _ => 9 }

/-- Master position 5, inside the trim window [2, 8]. -/
def mTrimMid : Manager :=
  { baseM with videos := [3], store := storeTrimWin, times := fun _ => 5 }

/-- C7 (witness): the three clamping branches evaluated on the window [2, 8]
at the positions 1, 9 and 5. -/
theorem trim_clamping_witness :
    (videoTimeUpdate mTrimLow 3).store.position = 2 ∧
    (videoTimeUpdate mTrimHigh 3).store.position = 8 ∧
    (videoTimeUpdate mTrimMid 3).store.position = 5 := by
  refine ⟨?_, ?_, ?_⟩
  · exact (trim_clamping mTrimLow 3 rfl rfl).1 2 rfl (by norm_num) (by norm_num [mTrimLow, baseM])
  · refine (trim_clamping mTrimHigh 3 rfl rfl).2.1 8 rfl (by norm_num)
      (by norm_num [mTrimHigh, baseM]) ?_
    intro ts hts h0
    have : ts = 2 := by simpa [mTrimHigh, storeTrimWin, storePlaying] using hts.symm
    subst this
    norm_num [mTrimHigh, baseM]
  · refine (trim_clamping mTrimMid 3 rfl rfl).2.2 ?_ ?_
    · intro ts hts h0
      have : ts = 2 := by simpa [mTrimMid, storeTrimWin, storePlaying] using hts.symm
      subst this
      norm_num [mTrimMid, baseM]
    · intro te hte h0
      have : te = 8 := by simpa [mTrimMid, storeTrimWin, storePlaying] using hte.symm
      subst this
      norm_num [mTrimMid, baseM]

theorem videoReady_snd_of_empties (m : Manager) (v : Nat)
    (hmem : v ∈ m.videosWaiting) (hlast : setDelete m.videosWaiting v = []) :
    (videoReady m v).2 = m.readyCallbacks.map Prod.fst := by
  rw [videoReady_empties m v hmem hlast]
  simp

theorem videoReady_callbacks_of_empties (m : Manager) (v : Nat)
    (hmem : v ∈ m.videosWaiting) (hlast : setDelete m.videosWaiting v = []) :
    (videoReady m v).1.readyCallbacks =
      m.readyCallbacks.filter (fun c => c.2 = false) := by
  rw [videoReady_empties m v hmem hlast]
  simp

/-- C8: when a ready notification empties the waiting set, the invoked
callbacks are exactly the registered ones in registration order; the callbacks
that remain registered afterwards are exactly those with once = false, in
order; and from any later state still carrying that surviving list, the next
emptying ready notification invokes exactly those surviving (recurring)
callbacks again. -/
theorem ready_callbacks_invocation (m : Manager) (v : Nat)
    (hmem : v ∈ m.videosWaiting) (hlast : setDelete m.videosWaiting v = []) :
    (videoReady m v).2 = m.readyCallbacks.map Prod.fst ∧
    (videoReady m v).1.readyCallbacks =
      m.readyCallbacks.filter (fun c => c.2 = false) ∧
    (∀ (m2 : Manager) (w : Nat), w ∈ m2.videosWaiting →
      setDelete m2.videosWaiting w = [] →
      m2.readyCallbacks = (videoReady m v).1.readyCallbacks →
      (videoReady m2 w).2 =
        (m.readyCallbacks.filter (fun c => c.2 = false)).map Prod.fst) := by
  refine ⟨videoReady_snd_of_empties m v hmem hlast,
    videoReady_callbacks_of_empties m v hmem hlast, ?_⟩
  intro m2 w h1 h2 h3
  rw [videoReady_snd_of_empties m2 w h1 h2, h3,
    videoReady_callbacks_of_empties m v hmem hlast]

/-- A state in which element 1 is the sole waiting element. -/
def mReadyC : Manager :=
  { baseM with
    videosWaiting := [1],
    store := storeWaiting,
    backupPlayState := some PlayState.PLAYING }

/-- C8 (witness): a ready notification from the sole waiting element invokes
callbacks 10 and 11 in order and keeps only the recurring callback 10. -/
theorem ready_callbacks_invocation_witness :
    (videoReady mReadyC 1).2 = [10, 11] ∧
    (videoReady mReadyC 1).1.readyCallbacks = [(10, false)] := by
  have h := ready_callbacks_invocation mReadyC 1 (by decide) (by decide)
  exact ⟨h.1.trans (by decide), h.2.1.trans (by decide)⟩

/-- C9: on a seek notification, if the seek target (the element's current
time) falls inside some buffered interval then the whole engine and store
state is unchanged; otherwise the handler is exactly `setWaiting`: the element
joins the waiting set, the play state is backed up when it is the first
waiting element (and the play state was not already WAITING), WAITING is
published unless the play state is FINISHED, in which case it is kept. -/
theorem seek_handling (m : Manager) (v : Nat) (buffered : List (ℚ × ℚ)) :
    ((∃ r ∈ buffered, r.1 ≤ m.times v ∧ m.times v < r.2) →
      videoSeeking m v buffered = m) ∧
    (¬ (∃ r ∈ buffered, r.1 ≤ m.times v ∧ m.times v < r.2) →
      videoSeeking m v buffered = setWaiting m v ∧
      v ∈ (videoSeeking m v buffered).videosWaiting ∧
      (m.videosWaiting = [] → m.store.playState ≠ PlayState.WAITING →
        (videoSeeking m v buffered).backupPlayState = some m.store.playState) ∧
      (m.store.playState ≠ PlayState.FINISHED →
        (videoSeeking m v buffered).store.playState = PlayState.WAITING) ∧
      (m.store.playState = PlayState.FINISHED →
        (videoSeeking m v buffered).store.playState = m.store.playState)) := by
  constructor
  · intro hex
    unfold videoSeeking
    rw [if_pos ((bufferedContains_iff _ _).mpr hex)]
  · intro hex
    have hbc : bufferedContains buffered (m.times v) = false :=
      Bool.eq_false_iff.mpr (fun h => hex ((bufferedContains_iff _ _).mp h))
    have hres : videoSeeking m v buffered = setWaiting m v := by
      unfold videoSeeking
      rw [hbc]
      simp
    refine ⟨hres, ?_, ?_, ?_, ?_⟩
    · rw [hres, setWaiting_videosWaiting, mem_setAdd]
      exact Or.inr rfl
    · intro hw hps
      rw [hres, setWaiting_backup, (anyWaiting_eq_false_iff m).mpr hw]
      simp [hps]
    · intro hfin
      rw [hres, setWaiting_playState, if_neg hfin]
    · intro hfin
      rw [hres, setWaiting_playState, if_pos hfin]

/-- C9 (witness): a buffered seek leaves the state unchanged; an unbuffered
seek publishes WAITING and records the element as waiting. -/
theorem seek_handling_witness :
    videoSeeking baseM 1 [(0, 3)] = baseM ∧
    (videoSeeking baseM 1 [(5, 9)]).store.playState = PlayState.WAITING ∧
    1 ∈ (videoSeeking baseM 1 [(5, 9)]).videosWaiting := by
  refine ⟨(seek_handling baseM 1 [(0, 3)]).1 (by decide), ?_, ?_⟩
  · exact ((seek_handling baseM 1 [(5, 9)]).2 (by decide)).2.2.2.1 (by decide)
  · exact ((seek_handling baseM 1 [(5, 9)]).2 (by decide)).2.1

/-- C10: a drift-correction tick on an empty registry is a no-op: the whole
state (store included) is returned unchanged, no element is marked waiting and
nothing is written; both correction filters range over the empty registry, so
the position of the nonexistent master is never read. -/
theorem sync_empty_registry (thr : ℚ) (m : Manager) (h : m.videos = []) :
    syncVideosTick thr m = m := by
  unfold syncVideosTick
  split
  · rw [h]
    split <;> rfl
  · rfl

/-- An engine state with an empty registry. -/
def mEmptyC : Manager :=
  { baseM with videos := [] }

/-- C10 (witness): the empty-registry tick evaluated on a concrete state. -/
theorem sync_empty_registry_witness : syncVideosTick 1 mEmptyC = mEmptyC :=
  sync_empty_registry 1 mEmptyC rfl

end VideoPlayer
